import Mathlib

/-!
Shallow embedding of `src/js/worker/ringbuffer.js`: the `RingBuffer`
circular queue (the version with `min_capacity` / `empty_value`) and the
`UARTDev` serial-port device built on top of it.

Machine-integer aspects of the JavaScript source are made explicit:
`Int32Array` slots coerce stored values with `toInt32`, the JavaScript
`~` operator on the unsigned-32-bit view is `js_not`, and `1 << line`
shifts by `line % 32`.  Side effects on the two collaborators
(`intdev.RaiseInterrupt` / `intdev.ClearInterrupt` / `odev.PutChar`) are
modelled as an event trace returned next to the updated state.
-/

set_option maxRecDepth 4000

/-- JavaScript `ToInt32`: reduce an integer into `[-2^31, 2^31)`. -/
def toInt32 (v : ℤ) : ℤ := (v + 2 ^ 31) % 2 ^ 32 - 2 ^ 31

/-- The value is representable as a 32-bit signed integer. -/
def inRange32 (v : ℤ) : Prop := -(2 ^ 31) ≤ v ∧ v < 2 ^ 31

instance (v : ℤ) : Decidable (inRange32 v) := by unfold inRange32; infer_instance

/-- Reading an `Int32Array` slot; out-of-bounds reads yield the
zero-like default (they are unreachable under the queue invariant). -/
def i32get (a : Array ℤ) (i : ℕ) : ℤ := a.getD i 0

/-- Writing an `Int32Array` slot: the stored value is coerced with
`ToInt32`; out-of-bounds writes are ignored, as in JavaScript. -/
def i32set (a : Array ℤ) (i : ℕ) (v : ℤ) : Array ℤ :=
  if h : i < a.size then a.set ⟨i, h⟩ (toInt32 v) else a

/-- `RingBuffer` state: `begin`/`«end»`/`length` indices plus the
`Int32Array` storage, the shrink floor and the vacated-slot sentinel. -/
structure RingBuffer where
  begin : ℕ
  «end» : ℕ
  length : ℕ
  shrink_count : ℕ
  min_capacity : ℕ
  array : Array ℤ
  empty_value : ℤ
  deriving DecidableEq, Repr

namespace RingBuffer

/-- `_new_array(size)`: a fresh zero-filled `Int32Array`. -/
def new_array (size : ℕ) : Array ℤ := Array.mkArray size 0

/-- `reset()`: the state of a freshly constructed `RingBuffer`
(`empty_value` is `this.array[0]` of the fresh 16-slot array). -/
def reset : RingBuffer :=
  { begin := 0, «end» := 0, length := 0, shrink_count := 0,
    min_capacity := 128, array := new_array 0x10,
    empty_value := i32get (new_array 0x10) 0 }

/-- One of the two copy loops of `_realloc`:
`while (i < stop) dst[i++] = old[j++]`. -/
def copy_loop (old : Array ℤ) (dst : Array ℤ) (i j stop : ℕ) : Array ℤ :=
  if i < stop then copy_loop old (i32set dst i (i32get old j)) (i + 1) (j + 1) stop
  else dst
  termination_by stop - i

/-- `_realloc(size)`: copy the live elements (unwrapped segment, then the
wrapped remainder) into a fresh array and reset `begin` to 0. -/
def realloc (rb : RingBuffer) (size : ℕ) : RingBuffer :=
  let len := rb.length
  if len > size then rb
  else
    let old := rb.array
    let a0 := new_array size
    let wrap := min len (old.size - rb.begin)
    let a1 := copy_loop old a0 0 rb.begin wrap
    let a2 := copy_loop old a1 wrap 0 len
    { rb with array := a2, begin := 0, «end» := len }

/-- `_check_grow()`: double the capacity when the buffer is full. -/
def check_grow (rb : RingBuffer) : RingBuffer :=
  if rb.length = rb.array.size then rb.realloc (rb.length <<< 1) else rb

/-- `_check_shrink()`: quarter the capacity when occupancy is at most an
eighth of it and the candidate stays at or above `min_capacity`. -/
def check_shrink (rb : RingBuffer) : RingBuffer :=
  let candidate_size := rb.array.size >>> 2
  if rb.length ≤ candidate_size >>> 1 ∧ rb.min_capacity ≤ candidate_size then
    ({ rb with shrink_count := rb.shrink_count + 1 }).realloc candidate_size
  else rb

/-- `get(index)`: unchecked read of logical position `index`. -/
def get (rb : RingBuffer) (index : ℕ) : ℤ :=
  i32get rb.array ((rb.begin + index) % rb.array.size)

/-- `push(value)`: append at `«end»`; returns the new length. -/
def push (rb : RingBuffer) (value : ℤ) : RingBuffer × ℕ :=
  let rb := rb.check_grow
  let rb := { rb with array := i32set rb.array rb.«end» value }
  let rb := { rb with «end» := (rb.«end» + 1) % rb.array.size }
  let rb := { rb with length := rb.length + 1 }
  (rb, rb.length)

/-- `unshift(value)`: prepend before `begin`; returns the new length. -/
def unshift (rb : RingBuffer) (value : ℤ) : RingBuffer × ℕ :=
  let rb := rb.check_grow
  let rb := { rb with begin := (rb.begin + rb.array.size - 1) % rb.array.size }
  let rb := { rb with array := i32set rb.array rb.begin value }
  let rb := { rb with length := rb.length + 1 }
  (rb, rb.length)

/-- `pop()`: remove from the back, writing `empty_value` into the
vacated slot; `none` models the `undefined` returned on empty. -/
def pop (rb : RingBuffer) : RingBuffer × Option ℤ :=
  if rb.length = 0 then (rb, none)
  else
    let rb := rb.check_shrink
    let rb := { rb with length := rb.length - 1 }
    let rb := { rb with «end» := (rb.«end» + rb.array.size - 1) % rb.array.size }
    let result := i32get rb.array rb.«end»
    let rb := { rb with array := i32set rb.array rb.«end» rb.empty_value }
    (rb, some result)

/-- `shift()`: remove from the front, writing `empty_value` into the
vacated slot; `none` models the `undefined` returned on empty. -/
def shift (rb : RingBuffer) : RingBuffer × Option ℤ :=
  if rb.length = 0 then (rb, none)
  else
    let rb := rb.check_shrink
    let rb := { rb with length := rb.length - 1 }
    let result := i32get rb.array rb.begin
    let rb := { rb with array := i32set rb.array rb.begin rb.empty_value }
    let rb := { rb with begin := (rb.begin + 1) % rb.array.size }
    (rb, some result)

end RingBuffer

/-- One public `RingBuffer` operation. -/
inductive Op where
  | push (v : ℤ)
  | unshift (v : ℤ)
  | pop
  | shift
  | get (i : ℕ)
  deriving DecidableEq, Repr

/-- Observable result of one operation (`undef` is JavaScript's
`undefined`). -/
inductive Out where
  | num (n : ℕ)
  | val (v : ℤ)
  | undef
  deriving DecidableEq, Repr

namespace RingBuffer

/-- Run one operation on the ring buffer, recording its result. -/
def step (rb : RingBuffer) : Op → RingBuffer × Out
  | .push v => let (rb, n) := rb.push v; (rb, .num n)
  | .unshift v => let (rb, n) := rb.unshift v; (rb, .num n)
  | .pop => let (rb, r) := rb.pop
            (rb, match r with | some v => .val v | none => .undef)
  | .shift => let (rb, r) := rb.shift
              (rb, match r with | some v => .val v | none => .undef)
  | .get i => (rb, .val (rb.get i))

/-- Run a sequence of operations, collecting the results. -/
def run (rb : RingBuffer) : List Op → RingBuffer × List Out
  | [] => (rb, [])
  | op :: ops =>
      let (rb1, o) := rb.step op
      let (rb2, os) := rb1.run ops
      (rb2, o :: os)

end RingBuffer

namespace DequeRef

/-- Reference double-ended queue (a JavaScript `Array`), as the spec's
cross-check model: one operation on a plain list. -/
def step (l : List ℤ) : Op → List ℤ × Out
  | .push v => (l ++ [v], .num (l.length + 1))
  | .unshift v => (v :: l, .num (l.length + 1))
  | .pop => match l.getLast? with
            | some v => (l.dropLast, .val v)
            | none => (l, .undef)
  | .shift => match l.head? with
              | some v => (l.tail, .val v)
              | none => (l, .undef)
  | .get i => (l, match l.get? i with | some v => .val v | none => .undef)

/-- Run a sequence of operations on the reference deque. -/
def run (l : List ℤ) : List Op → List ℤ × List Out
  | [] => (l, [])
  | op :: ops =>
      let (l1, o) := step l op
      let (l2, os) := run l1 ops
      (l2, o :: os)

/-- An operation is within the compared domain: pushed values fit in an
`Int32Array` slot and `get` indices are in bounds (the unchecked
precondition `0 ≤ index < length` of `get`). -/
def opOK (l : List ℤ) : Op → Bool
  | .push v => decide (inRange32 v)
  | .unshift v => decide (inRange32 v)
  | .get i => decide (i < l.length)
  | .pop => true
  | .shift => true

/-- Every operation of the sequence is within the compared domain,
checked against the reference deque as it evolves. -/
def validOps (l : List ℤ) : List Op → Bool
  | [] => true
  | op :: ops => opOK l op && validOps (step l op).1 ops

end DequeRef

/-- The ring buffer faithfully stores the list `l` in logical order:
the structural invariant tying `begin`, `«end»`, `length` and the
storage contents together. -/
def Models (rb : RingBuffer) (l : List ℤ) : Prop :=
  0 < rb.array.size ∧
  rb.length = l.length ∧
  rb.length ≤ rb.array.size ∧
  rb.begin < rb.array.size ∧
  rb.«end» = (rb.begin + rb.length) % rb.array.size ∧
  128 ≤ rb.min_capacity ∧
  (∀ i, i < l.length → i32get rb.array ((rb.begin + i) % rb.array.size) = l.getD i 0) ∧
  (∀ i, i < l.length → inRange32 (l.getD i 0))

instance (rb : RingBuffer) (l : List ℤ) : Decidable (Models rb l) := by
  unfold Models; infer_instance

/-- Weak well-formedness: enough structure to track capacity through
arbitrary (even out-of-range-valued) operation sequences. -/
def WF (rb : RingBuffer) : Prop :=
  0 < rb.array.size ∧
  rb.length ≤ rb.array.size ∧
  128 ≤ rb.min_capacity ∧
  (∃ k, rb.array.size = 2 ^ k)

/-- JavaScript `~x` seen on the unsigned 32-bit view: xor with the
32-bit all-ones mask. -/
def js_not (x : ℕ) : ℕ := (2 ^ 32 - 1) ^^^ (x % 2 ^ 32)

def UART_LSR_DATA_READY : ℕ := 0x1
def UART_LSR_FIFO_EMPTY : ℕ := 0x20
def UART_LSR_TRANSMITTER_EMPTY : ℕ := 0x40

def UART_IER_THRI : ℕ := 0x02
def UART_IER_RDI : ℕ := 0x01

def UART_IIR_MSI : ℕ := 0x00
def UART_IIR_NO_INT : ℕ := 0x01
def UART_IIR_THRI : ℕ := 0x02
def UART_IIR_RDI : ℕ := 0x04
def UART_IIR_RLSI : ℕ := 0x06
def UART_IIR_CTI : ℕ := 0x0c

def UART_LCR_DLAB : ℕ := 0x80

def UART_DLL : ℕ := 0
def UART_DLH : ℕ := 1

def UART_IER : ℕ := 1
def UART_IIR : ℕ := 2
def UART_FCR : ℕ := 2
def UART_LCR : ℕ := 3
def UART_MCR : ℕ := 4
def UART_LSR : ℕ := 5
def UART_MSR : ℕ := 6

/-- An observable call to one of the collaborators: the interrupt
sink's raise/clear (`intdev`), the byte sink (`odev.PutChar`), or the
fatal `abort()` of an unsupported register. -/
inductive Ev where
  | raiseIrq (line : ℕ)
  | clearIrq (line : ℕ)
  | putChar (x : ℕ)
  | abortEv
  deriving DecidableEq, Repr

/-- Whether an event is a byte-sink invocation. -/
def Ev.isPutChar : Ev → Bool
  | .putChar _ => true
  | _ => false

/-- `UARTDev` register file plus its receive fifo. -/
structure UARTDev where
  LCR : ℕ
  LSR : ℕ
  MSR : ℕ
  IIR : ℕ
  ints : ℕ
  IER : ℕ
  DLL : ℕ
  DLH : ℕ
  FCR : ℕ
  MCR : ℕ
  input : ℕ
  fifo : RingBuffer
  deriving DecidableEq, Repr

namespace UARTDev

/-- `Reset()`: power-on register values (the fifo is untouched). -/
def Reset (s : UARTDev) : UARTDev :=
  { s with
    LCR := 0x3,
    LSR := UART_LSR_TRANSMITTER_EMPTY ||| UART_LSR_FIFO_EMPTY,
    MSR := 0,
    IIR := UART_IIR_NO_INT,
    ints := 0x0,
    IER := 0x0,
    DLL := 0,
    DLH := 0,
    FCR := 0x0,
    MCR := 0x0,
    input := 0 }

/-- The constructor: `Reset()` then a fresh receive `RingBuffer`. -/
def init : UARTDev :=
  Reset
    { LCR := 0, LSR := 0, MSR := 0, IIR := 0, ints := 0, IER := 0,
      DLL := 0, DLH := 0, FCR := 0, MCR := 0, input := 0,
      fifo := RingBuffer.reset }

/-- `ThrowCTI()`: mark the character-timeout cause pending and, when
enabled and not pre-empted by a higher-priority report, report it and
raise the interrupt line. -/
def ThrowCTI (s : UARTDev) : UARTDev × List Ev :=
  let s := { s with ints := s.ints ||| (1 <<< UART_IIR_CTI) }
  if s.IER &&& UART_IER_RDI = 0 then (s, [])
  else if s.IIR ≠ UART_IIR_RLSI ∧ s.IIR ≠ UART_IIR_RDI then
    ({ s with IIR := UART_IIR_CTI }, [Ev.raiseIrq 0x2])
  else (s, [])

/-- `ThrowTHRI()`: mark the transmit-holding-empty cause pending and,
when enabled and IIR allows, report it and raise the interrupt line. -/
def ThrowTHRI (s : UARTDev) : UARTDev × List Ev :=
  let s := { s with ints := s.ints ||| (1 <<< UART_IIR_THRI) }
  if s.IER &&& UART_IER_THRI = 0 then (s, [])
  else if s.IIR &&& UART_IIR_NO_INT ≠ 0 ∨ s.IIR = UART_IIR_MSI ∨ s.IIR = UART_IIR_THRI then
    ({ s with IIR := UART_IIR_THRI }, [Ev.raiseIrq 0x2])
  else (s, [])

/-- `NextInterrupt()`: re-arbitrate pending causes in priority order. -/
def NextInterrupt (s : UARTDev) : UARTDev × List Ev :=
  if s.ints &&& (1 <<< UART_IIR_CTI) ≠ 0 ∧ s.IER &&& UART_IER_RDI ≠ 0 then
    ThrowCTI s
  else if s.ints &&& (1 <<< UART_IIR_THRI) ≠ 0 ∧ s.IER &&& UART_IER_THRI ≠ 0 then
    ThrowTHRI s
  else
    ({ s with IIR := UART_IIR_NO_INT }, [Ev.clearIrq 0x2])

/-- `ClearInterrupt(line)`: drop the cause from `ints`, set IIR to
no-interrupt, and then — comparing `line` against the just-overwritten
IIR, exactly as the source does — possibly re-arbitrate. -/
def ClearInterrupt (s : UARTDev) (line : ℕ) : UARTDev × List Ev :=
  let s := { s with ints := s.ints &&& js_not (1 <<< (line % 32)) }
  let s := { s with IIR := UART_IIR_NO_INT }
  if line ≠ s.IIR then (s, [])
  else NextInterrupt s

/-- `ReceiveChar(x)`: enqueue the byte, set Data-Ready, and signal an
immediate character timeout. -/
def ReceiveChar (s : UARTDev) (x : ℤ) : UARTDev × List Ev :=
  let s := { s with fifo := (s.fifo.push x).1 }
  let s := { s with LSR := s.LSR ||| UART_LSR_DATA_READY }
  ThrowCTI s

/-- `ReadReg8(addr)`: register read; returns the new state, the trace
of collaborator calls, and the value read (`none` on `abort()`). -/
def ReadReg8 (s : UARTDev) (addr : ℕ) : UARTDev × List Ev × Option ℤ :=
  if s.LCR &&& UART_LCR_DLAB ≠ 0 ∧ addr = UART_DLL then (s, [], some (s.DLL : ℤ))
  else if s.LCR &&& UART_LCR_DLAB ≠ 0 ∧ addr = UART_DLH then (s, [], some (s.DLH : ℤ))
  else if addr = 0 then
    let ret : Option ℤ := some 0x21
    let s := { s with input := 0 }
    let (s, e1) := ClearInterrupt s UART_IIR_RDI
    let (s, e2) := ClearInterrupt s UART_IIR_CTI
    let fifo_len := s.fifo.length
    let (s, ret) :=
      if 1 ≤ fifo_len then
        let (f, r) := s.fifo.shift
        ({ s with fifo := f }, r)
      else (s, ret)
    if 1 < fifo_len then
      let s := { s with LSR := s.LSR ||| UART_LSR_DATA_READY }
      let (s, e3) := ThrowCTI s
      (s, e1 ++ e2 ++ e3, ret)
    else
      ({ s with LSR := s.LSR &&& js_not UART_LSR_DATA_READY }, e1 ++ e2, ret)
  else if addr = UART_IER then (s, [], some ((s.IER &&& 0x0F : ℕ) : ℤ))
  else if addr = UART_MSR then (s, [], some (s.MSR : ℤ))
  else if addr = UART_IIR then
    let ret : ℕ := (s.IIR &&& 0x0f) ||| 0xC0
    if s.IIR = UART_IIR_THRI then
      let (s, e) := ClearInterrupt s UART_IIR_THRI
      (s, e, some (ret : ℤ))
    else (s, [], some (ret : ℤ))
  else if addr = UART_LCR then (s, [], some (s.LCR : ℤ))
  else if addr = UART_LSR then (s, [], some (s.LSR : ℤ))
  else (s, [Ev.abortEv], none)

/-- `WriteReg8(addr, x)`: register write (value masked to 8 bits);
returns the new state and the trace of collaborator calls. -/
def WriteReg8 (s : UARTDev) (addr : ℕ) (x : ℕ) : UARTDev × List Ev :=
  let x := x &&& 0xFF
  if s.LCR &&& UART_LCR_DLAB ≠ 0 ∧ addr = UART_DLL then ({ s with DLL := x }, [])
  else if s.LCR &&& UART_LCR_DLAB ≠ 0 ∧ addr = UART_DLH then ({ s with DLH := x }, [])
  else if addr = 0 then
    let s := { s with LSR := s.LSR &&& js_not UART_LSR_FIFO_EMPTY }
    let s := { s with LSR := s.LSR ||| UART_LSR_FIFO_EMPTY }
    let (s, e) := ThrowTHRI s
    (s, Ev.putChar x :: e)
  else if addr = UART_IER then
    let s := { s with IER := x &&& 0x0F }
    NextInterrupt s
  else if addr = UART_FCR then ({ s with FCR := x }, [])
  else if addr = UART_LCR then ({ s with LCR := x }, [])
  else if addr = UART_MCR then ({ s with MCR := x }, [])
  else (s, [Ev.abortEv])

end UARTDev

/-- One public operation on the serial port (register access, byte
arrival, reset, or one of the signal/acknowledge paths). -/
inductive UOp where
  | recv (x : ℤ)
  | rd (addr : ℕ)
  | wr (addr : ℕ) (x : ℕ)
  | rst
  | cti
  | thri
  | nextInt
  | clrInt (line : ℕ)
  deriving DecidableEq, Repr

namespace UARTDev

/-- Run a sequence of public operations, keeping only the state. -/
def runOps (s : UARTDev) : List UOp → UARTDev
  | [] => s
  | op :: ops =>
      let s' :=
        match op with
        | .recv x => (s.ReceiveChar x).1
        | .rd a => (s.ReadReg8 a).1
        | .wr a x => (s.WriteReg8 a x).1
        | .rst => s.Reset
        | .cti => (s.ThrowCTI).1
        | .thri => (s.ThrowTHRI).1
        | .nextInt => (s.NextInterrupt).1
        | .clrInt line => (s.ClearInterrupt line).1
      runOps s' ops

end UARTDev

/-- The spec's reading of `acknowledge(cause)` (claim C1), written from
the spec's words: clear the cause bit, set IIR to no-interrupt, and
re-arbitrate if and only if the cleared cause matches the value IIR
held immediately before it was overwritten. -/
def ClearInterrupt_claimed (s : UARTDev) (line : ℕ) : UARTDev × List Ev :=
  let old := s.IIR
  let s := { s with ints := s.ints &&& js_not (1 <<< (line % 32)) }
  let s := { s with IIR := UART_IIR_NO_INT }
  if line = old then UARTDev.NextInterrupt s else (s, [])

/-- The amended reading of `acknowledge(cause)`: as above, but the
comparison is against the no-interrupt value that IIR holds after the
overwrite (so re-arbitration happens only for `cause = 0x01`). -/
def ClearInterrupt_amended (s : UARTDev) (line : ℕ) : UARTDev × List Ev :=
  let s := { s with ints := s.ints &&& js_not (1 <<< (line % 32)) }
  let s := { s with IIR := UART_IIR_NO_INT }
  if line = UART_IIR_NO_INT then UARTDev.NextInterrupt s else (s, [])

/-- A concrete device state with only the Transmit-Holding-Empty cause
pending and reported; input for the acknowledge-path claims. -/
def thriPending : UARTDev :=
  { UARTDev.init with IIR := UART_IIR_THRI, ints := 1 <<< UART_IIR_THRI }

/-- A concrete device state with receive interrupts enabled and two
bytes already queued; input for the receive-path claims. -/
def recvTwo : UARTDev :=
  { UARTDev.init with
      IER := UART_IER_RDI,
      fifo := ((RingBuffer.reset.push 65).1.push 66).1 }

/-- IIR holds one of the three values the device ever reports:
no-interrupt, Transmit-Holding-Empty or Character-Timeout. -/
def IIRreported (s : UARTDev) : Prop :=
  s.IIR = UART_IIR_NO_INT ∨ s.IIR = UART_IIR_THRI ∨ s.IIR = UART_IIR_CTI

/-! ### Basic facts about the `Int32Array` model -/

theorem toInt32_eq_self {v : ℤ} (h : inRange32 v) : toInt32 v = v := by
  obtain ⟨h1, h2⟩ := h
  unfold toInt32
  rw [Int.emod_eq_of_lt (by omega) (by omega)]
  omega

theorem inRange32_toInt32 (v : ℤ) : inRange32 (toInt32 v) := by
  unfold toInt32 inRange32
  have h1 : 0 ≤ (v + 2 ^ 31) % 2 ^ 32 := Int.emod_nonneg _ (by norm_num)
  have h2 : (v + 2 ^ 31) % 2 ^ 32 < 2 ^ 32 := Int.emod_lt_of_pos _ (by norm_num)
  omega

theorem size_i32set (a : Array ℤ) (i : ℕ) (v : ℤ) : (i32set a i v).size = a.size := by
  unfold i32set; split <;> simp

theorem i32get_i32set_self (a : Array ℤ) (i : ℕ) (v : ℤ) (h : i < a.size) :
    i32get (i32set a i v) i = toInt32 v := by
  unfold i32get i32set
  rw [dif_pos h, Array.getD, dif_pos (by simpa using h)]
  simp [Array.get_set_eq]

theorem i32get_i32set_of_ne (a : Array ℤ) (i k : ℕ) (v : ℤ) (hne : k ≠ i) :
    i32get (i32set a i v) k = i32get a k := by
  unfold i32get i32set
  split
  · next hi =>
      unfold Array.getD
      split
      · next hk =>
          rw [dif_pos (by simpa using hk)]
          simpa [Ne.symm hne] using
            Array.get_set a ⟨i, hi⟩ k (by simpa using hk) (toInt32 v)
      · next hk => rw [dif_neg (by simpa using hk)]
  · rfl

theorem size_new_array (n : ℕ) : (RingBuffer.new_array n).size = n := by
  simp [RingBuffer.new_array]

theorem i32get_new_array (n k : ℕ) : i32get (RingBuffer.new_array n) k = 0 := by
  unfold i32get RingBuffer.new_array Array.getD
  split
  · simp [Array.getElem_mkArray]
  · rfl

/-! ### List access helpers for the reference deque -/

theorem list_getD_append_left (l : List ℤ) (v : ℤ) (i : ℕ) (h : i < l.length) :
    (l ++ [v]).getD i 0 = l.getD i 0 := by
  rw [List.getD_append]; omega

theorem list_getD_append_last (l : List ℤ) (v : ℤ) : (l ++ [v]).getD l.length 0 = v := by
  rw [List.getD_eq_getElem] <;> simp

theorem list_head?_eq_getD (l : List ℤ) (h : l ≠ []) : l.head? = some (l.getD 0 0) := by
  cases l with
  | nil => simp at h
  | cons a t => simp [List.getD]

theorem list_getLast?_eq_getD (l : List ℤ) (h : l ≠ []) :
    l.getLast? = some (l.getD (l.length - 1) 0) := by
  have hl : 0 < l.length := List.length_pos.mpr h
  rw [List.getLast?_eq_getElem? l]
  have hlt : l.length - 1 < l.length := by omega
  rw [List.getElem?_eq_getElem hlt, List.getD_eq_getElem l 0 hlt]

theorem list_getD_dropLast (l : List ℤ) (i : ℕ) (h : i < l.length - 1) :
    l.dropLast.getD i 0 = l.getD i 0 := by
  have h1 : i < l.dropLast.length := by simpa using h
  rw [List.getD_eq_getElem l.dropLast 0 h1, List.getD_eq_getElem l 0 (by omega)]
  exact List.getElem_dropLast l i (by simpa using h)

theorem list_getD_tail (l : List ℤ) (i : ℕ) : l.tail.getD i 0 = l.getD (i + 1) 0 := by
  cases l <;> rfl

theorem list_get?_eq_getD (l : List ℤ) (i : ℕ) (h : i < l.length) :
    l.get? i = some (l.getD i 0) := by
  rw [List.get?_eq_getElem?, List.getElem?_eq_getElem h, List.getD_eq_getElem l 0 h]

/-! ### Ring-buffer slot arithmetic -/

theorem slot_inj {n b i j : ℕ} (hn : 0 < n) (hi : i < n) (hj : j < n) :
    (b + i) % n = (b + j) % n ↔ i = j := by
  constructor
  · intro h
    have hm : i ≡ j [MOD n] := Nat.ModEq.add_left_cancel' b h
    have hm2 : i % n = j % n := hm
    rwa [Nat.mod_eq_of_lt hi, Nat.mod_eq_of_lt hj] at hm2
  · intro h; rw [h]

theorem mod_sub_of_le {a n : ℕ} (h1 : n ≤ a) (h2 : a < 2 * n) : a % n = a - n := by
  have h0 : 0 < n := by omega
  rw [Nat.mod_eq_sub_mod h1, Nat.mod_eq_of_lt (by omega)]

/-! ### The reallocation copy -/

theorem i32set_oob (a : Array ℤ) (i : ℕ) (v : ℤ) (h : ¬ i < a.size) : i32set a i v = a := by
  unfold i32set; rw [dif_neg h]

theorem copy_loop_size_aux (old : Array ℤ) (stop : ℕ) :
    ∀ (n i j : ℕ) (dst : Array ℤ), stop - i ≤ n →
      (RingBuffer.copy_loop old dst i j stop).size = dst.size := by
  intro n
  induction n with
  | zero =>
      intro i j dst h
      rw [RingBuffer.copy_loop, if_neg (by omega)]
  | succ n ih =>
      intro i j dst h
      rw [RingBuffer.copy_loop]
      split
      · next hlt => rw [ih (i + 1) (j + 1) _ (by omega), size_i32set]
      · rfl

theorem copy_loop_size (old dst : Array ℤ) (i j stop : ℕ) :
    (RingBuffer.copy_loop old dst i j stop).size = dst.size :=
  copy_loop_size_aux old stop (stop - i) i j dst le_rfl

theorem copy_loop_get_aux (old : Array ℤ) (stop : ℕ) :
    ∀ (n i j : ℕ) (dst : Array ℤ) (k : ℕ), stop - i ≤ n →
      i32get (RingBuffer.copy_loop old dst i j stop) k =
        if i ≤ k ∧ k < stop ∧ k < dst.size then toInt32 (i32get old (j + (k - i)))
        else i32get dst k := by
  intro n
  induction n with
  | zero =>
      intro i j dst k h
      rw [RingBuffer.copy_loop, if_neg (by omega), if_neg (by omega)]
  | succ n ih =>
      intro i j dst k h
      rw [RingBuffer.copy_loop]
      split
      · next hlt =>
          rw [ih (i + 1) (j + 1) _ k (by omega), size_i32set]
          by_cases hk : k = i
          · subst hk
            rw [if_neg (by omega)]
            by_cases hsz : k < dst.size
            · rw [if_pos ⟨le_rfl, hlt, hsz⟩, i32get_i32set_self _ _ _ hsz]
              simp
            · rw [if_neg (by omega), i32set_oob _ _ _ hsz]
          · rw [i32get_i32set_of_ne _ _ _ _ hk]
            by_cases hc : i ≤ k ∧ k < stop ∧ k < dst.size
            · rw [if_pos (by omega), if_pos hc]
              have : j + 1 + (k - (i + 1)) = j + (k - i) := by omega
              rw [this]
            · rw [if_neg (by omega), if_neg hc]
      · next hlt =>
          rw [if_neg (by omega)]

theorem copy_loop_get (old dst : Array ℤ) (i j stop k : ℕ) :
    i32get (RingBuffer.copy_loop old dst i j stop) k =
      if i ≤ k ∧ k < stop ∧ k < dst.size then toInt32 (i32get old (j + (k - i)))
      else i32get dst k :=
  copy_loop_get_aux old stop (stop - i) i j dst k le_rfl

/-- Effect of `_realloc` when the sanity check passes and the source
indices are sane: contents move to offset 0 in logical order. -/
theorem realloc_spec (rb : RingBuffer) (size : ℕ)
    (hlen : rb.length ≤ size) (hb : rb.begin < rb.array.size)
    (hls : rb.length ≤ rb.array.size) :
    (rb.realloc size).array.size = size ∧
    (rb.realloc size).begin = 0 ∧
    (rb.realloc size).«end» = rb.length ∧
    (rb.realloc size).length = rb.length ∧
    (rb.realloc size).min_capacity = rb.min_capacity ∧
    (rb.realloc size).empty_value = rb.empty_value ∧
    (rb.realloc size).shrink_count = rb.shrink_count ∧
    ∀ i, i < rb.length →
      i32get (rb.realloc size).array i =
        toInt32 (i32get rb.array ((rb.begin + i) % rb.array.size)) := by
  unfold RingBuffer.realloc
  rw [if_neg (by omega)]
  refine ⟨?_, rfl, rfl, rfl, rfl, rfl, rfl, ?_⟩
  · rw [copy_loop_size, copy_loop_size, size_new_array]
  · intro i hi
    have hsz1 : (RingBuffer.copy_loop rb.array (RingBuffer.new_array size) 0 rb.begin
        (min rb.length (rb.array.size - rb.begin))).size = size := by
      rw [copy_loop_size, size_new_array]
    rw [copy_loop_get, hsz1]
    by_cases hw : min rb.length (rb.array.size - rb.begin) ≤ i
    · have hwv : min rb.length (rb.array.size - rb.begin) = rb.array.size - rb.begin := by
        omega
      rw [if_pos (by omega)]
      have hmod : (rb.begin + i) % rb.array.size = rb.begin + i - rb.array.size := by
        apply mod_sub_of_le <;> omega
      rw [hmod]
      congr 2
      omega
    · rw [if_neg (by omega), copy_loop_get, size_new_array]
      rw [if_pos (by omega)]
      have hmod : (rb.begin + i) % rb.array.size = rb.begin + i :=
        Nat.mod_eq_of_lt (by omega)
      rw [hmod]
      norm_num

/-! ### Preservation of the `Models` invariant -/

theorem models_realloc {rb : RingBuffer} {l : List ℤ} (hm : Models rb l) (size : ℕ)
    (hless : rb.length < size) :
    Models (rb.realloc size) l ∧
    (rb.realloc size).array.size = size ∧
    (rb.realloc size).length = rb.length ∧
    (rb.realloc size).empty_value = rb.empty_value := by
  obtain ⟨h0, h1, h2, h3, h4, h5, h6, h7⟩ := hm
  obtain ⟨r0, r1, r2, r3, r4, r5, r6, r7⟩ :=
    realloc_spec rb size (le_of_lt hless) h3 h2
  refine ⟨⟨?_, ?_, ?_, ?_, ?_, ?_, ?_, h7⟩, r0, r3, r5⟩
  · omega
  · omega
  · omega
  · omega
  · rw [r2, r1, r0, r3, Nat.zero_add, Nat.mod_eq_of_lt (by omega)]
  · omega
  · intro i hi
    rw [r1, r0, Nat.zero_add, Nat.mod_eq_of_lt (by omega),
      r7 i (by omega), h6 i hi, toInt32_eq_self (h7 i hi)]

theorem models_check_grow {rb : RingBuffer} {l : List ℤ} (hm : Models rb l) :
    Models rb.check_grow l ∧
    rb.check_grow.length < rb.check_grow.array.size ∧
    rb.check_grow.length = rb.length ∧
    rb.check_grow.empty_value = rb.empty_value := by
  unfold RingBuffer.check_grow
  split
  · next heq =>
      have h0 := hm.1
      have hlt : rb.length < rb.length <<< 1 := by
        rw [Nat.shiftLeft_eq]
        omega
      obtain ⟨m0, m1, m2, m3⟩ := models_realloc hm (rb.length <<< 1) hlt
      exact ⟨m0, by omega, m2, m3⟩
  · next hne =>
      have h2 := hm.2.2.1
      exact ⟨hm, by omega, rfl, rfl⟩

theorem models_check_shrink {rb : RingBuffer} {l : List ℤ} (hm : Models rb l) :
    Models rb.check_shrink l ∧
    rb.check_shrink.length = rb.length ∧
    rb.check_shrink.empty_value = rb.empty_value := by
  simp only [RingBuffer.check_shrink]
  split
  · next hcond =>
      obtain ⟨hc1, hc2⟩ := hcond
      have h5 := hm.2.2.2.2.2.1
      have hcand : 0 < rb.array.size >>> 2 := by omega
      have hhalf : rb.array.size >>> 2 >>> 1 < rb.array.size >>> 2 := by
        rw [Nat.shiftRight_succ]
        omega
      have hm' : Models ({ rb with shrink_count := rb.shrink_count + 1 }) l := hm
      obtain ⟨m0, m1, m2, m3⟩ :=
        models_realloc hm' (rb.array.size >>> 2) (by simp only []; omega)
      exact ⟨m0, m2, m3⟩
  · exact ⟨hm, rfl, rfl⟩

theorem models_push {rb : RingBuffer} {l : List ℤ} {v : ℤ}
    (hm : Models rb l) (hv : inRange32 v) :
    Models (rb.push v).1 (l ++ [v]) ∧ (rb.push v).2 = l.length + 1 := by
  obtain ⟨hg, hlt, hglen, hgev⟩ := models_check_grow hm
  obtain ⟨h0, h1, h2, h3, h4, h5, h6, h7⟩ := hg
  have hpush : rb.push v =
      ({ rb.check_grow with
          array := i32set rb.check_grow.array rb.check_grow.«end» v,
          «end» := (rb.check_grow.«end» + 1) % rb.check_grow.array.size,
          length := rb.check_grow.length + 1 }, rb.check_grow.length + 1) := by
    simp only [RingBuffer.push, size_i32set]
  rw [hpush]
  set g := rb.check_grow with hgdef
  have hend : g.«end» < g.array.size := by
    rw [h4]
    exact Nat.mod_lt _ h0
  constructor
  · refine ⟨?_, ?_, ?_, ?_, ?_, ?_, ?_, ?_⟩
    · simpa [size_i32set] using h0
    · simp only [List.length_append, List.length_singleton]
      omega
    · simp only [size_i32set]
      omega
    · simpa [size_i32set] using h3
    · simp only [size_i32set, h4, Nat.mod_add_mod]
      congr 1
    · simpa using h5
    · intro i hi
      simp only [size_i32set, List.length_append, List.length_singleton] at hi ⊢
      by_cases hil : i < l.length
      · have hne : (g.begin + i) % g.array.size ≠ g.«end» := by
          rw [h4]
          intro hcontra
          have := (slot_inj h0 (by omega) (by omega)).mp hcontra
          omega
        rw [i32get_i32set_of_ne _ _ _ _ hne, h6 i hil, list_getD_append_left _ _ _ hil]
      · have hieq : i = l.length := by omega
        subst hieq
        have hslot : (g.begin + l.length) % g.array.size = g.«end» := by
          rw [h4, h1]
        rw [hslot, i32get_i32set_self _ _ _ hend, toInt32_eq_self hv,
          list_getD_append_last]
    · intro i hi
      simp only [List.length_append, List.length_singleton] at hi
      by_cases hil : i < l.length
      · rw [list_getD_append_left _ _ _ hil]
        exact h7 i hil
      · have hieq : i = l.length := by omega
        subst hieq
        rwa [list_getD_append_last]
  · simp only [h1]

theorem models_unshift {rb : RingBuffer} {l : List ℤ} {v : ℤ}
    (hm : Models rb l) (hv : inRange32 v) :
    Models (rb.unshift v).1 (v :: l) ∧ (rb.unshift v).2 = l.length + 1 := by
  obtain ⟨hg, hlt, hglen, hgev⟩ := models_check_grow hm
  obtain ⟨h0, h1, h2, h3, h4, h5, h6, h7⟩ := hg
  have hunshift : rb.unshift v =
      ({ rb.check_grow with
          begin := (rb.check_grow.begin + rb.check_grow.array.size - 1) % rb.check_grow.array.size,
          array := i32set rb.check_grow.array
            ((rb.check_grow.begin + rb.check_grow.array.size - 1) % rb.check_grow.array.size) v,
          length := rb.check_grow.length + 1 }, rb.check_grow.length + 1) := by
    simp only [RingBuffer.unshift, size_i32set]
  rw [hunshift]
  set g := rb.check_grow with hgdef
  set b' := (g.begin + g.array.size - 1) % g.array.size with hb'
  have hb'lt : b' < g.array.size := Nat.mod_lt _ h0
  have hshift : ∀ m, (b' + (m + 1)) % g.array.size = (g.begin + m) % g.array.size := by
    intro m
    rw [hb', Nat.mod_add_mod]
    have harg : g.begin + g.array.size - 1 + (m + 1) = g.begin + m + g.array.size := by
      omega
    rw [harg, Nat.add_mod_right]
  have hb'2 : b' = (g.begin + (g.array.size - 1)) % g.array.size := by
    rw [hb']
    congr 1
    omega
  constructor
  · refine ⟨?_, ?_, ?_, ?_, ?_, ?_, ?_, ?_⟩
    · simpa [size_i32set] using h0
    · simp only [List.length_cons]
      omega
    · simp only [size_i32set]
      omega
    · simpa [size_i32set] using hb'lt
    · simp only [size_i32set]
      rw [hshift g.length]
      exact h4
    · simpa using h5
    · intro i hi
      simp only [size_i32set, List.length_cons] at hi ⊢
      match i with
      | 0 =>
          have hslot : (b' + 0) % g.array.size = b' := by
            rw [Nat.add_zero, Nat.mod_eq_of_lt hb'lt]
          rw [hslot, i32get_i32set_self _ _ _ hb'lt, toInt32_eq_self hv]
          rfl
      | (m + 1) =>
          have him : m < l.length := by omega
          have hne : (b' + (m + 1)) % g.array.size ≠ b' := by
            rw [hshift m, hb'2]
            intro hcontra
            have := (slot_inj h0 (show m < g.array.size by omega)
              (show g.array.size - 1 < g.array.size by omega)).mp hcontra
            omega
          rw [i32get_i32set_of_ne _ _ _ _ hne, hshift m, h6 m him]
          rfl
    · intro i hi
      simp only [List.length_cons] at hi
      match i with
      | 0 => exact hv
      | (m + 1) => exact h7 m (by omega)
  · simp only [h1]

theorem models_pop {rb : RingBuffer} {l : List ℤ} (hm : Models rb l) (hl : l ≠ []) :
    Models (rb.pop).1 l.dropLast ∧ (rb.pop).2 = some (l.getD (l.length - 1) 0) := by
  have hlp : 0 < l.length := List.length_pos.mpr hl
  have hlen0 : ¬ rb.length = 0 := by
    rw [hm.2.1]
    omega
  obtain ⟨hs, hslen, hsev⟩ := models_check_shrink hm
  obtain ⟨h0, h1, h2, h3, h4, h5, h6, h7⟩ := hs
  have hpop : rb.pop =
      ({ rb.check_shrink with
          length := rb.check_shrink.length - 1,
          «end» := (rb.check_shrink.«end» + rb.check_shrink.array.size - 1) %
            rb.check_shrink.array.size,
          array := i32set rb.check_shrink.array
            ((rb.check_shrink.«end» + rb.check_shrink.array.size - 1) %
              rb.check_shrink.array.size)
            rb.check_shrink.empty_value },
        some (i32get rb.check_shrink.array
          ((rb.check_shrink.«end» + rb.check_shrink.array.size - 1) %
            rb.check_shrink.array.size))) := by
    simp only [RingBuffer.pop, if_neg hlen0]
  rw [hpop]
  set s := rb.check_shrink with hsdef
  have hsl : s.length = l.length := by omega
  have he' : (s.«end» + s.array.size - 1) % s.array.size =
      (s.begin + (s.length - 1)) % s.array.size := by
    have harg : s.«end» + s.array.size - 1 = s.«end» + (s.array.size - 1) := by omega
    rw [harg, h4, Nat.mod_add_mod]
    have harg2 : s.begin + s.length + (s.array.size - 1) =
        s.begin + (s.length - 1) + s.array.size := by omega
    rw [harg2, Nat.add_mod_right]
  constructor
  · refine ⟨?_, ?_, ?_, ?_, ?_, ?_, ?_, ?_⟩
    · simpa [size_i32set] using h0
    · simp only [List.length_dropLast]
      omega
    · simp only [size_i32set]
      omega
    · simpa [size_i32set] using h3
    · simp only [size_i32set, he']
    · simpa using h5
    · intro i hi
      simp only [size_i32set, List.length_dropLast] at hi ⊢
      have hne : (s.begin + i) % s.array.size ≠
          (s.«end» + s.array.size - 1) % s.array.size := by
        rw [he']
        intro hcontra
        have := (slot_inj h0 (show i < s.array.size by omega)
          (show s.length - 1 < s.array.size by omega)).mp hcontra
        omega
      rw [i32get_i32set_of_ne _ _ _ _ hne, h6 i (by omega),
        list_getD_dropLast _ _ hi]
    · intro i hi
      simp only [List.length_dropLast] at hi
      rw [list_getD_dropLast _ _ hi]
      exact h7 i (by omega)
  · rw [he', hsl, h6 (l.length - 1) (by omega)]

theorem models_shift {rb : RingBuffer} {l : List ℤ} (hm : Models rb l) (hl : l ≠ []) :
    Models (rb.shift).1 l.tail ∧ (rb.shift).2 = some (l.getD 0 0) := by
  have hlp : 0 < l.length := List.length_pos.mpr hl
  have hlen0 : ¬ rb.length = 0 := by
    rw [hm.2.1]
    omega
  obtain ⟨hs, hslen, hsev⟩ := models_check_shrink hm
  obtain ⟨h0, h1, h2, h3, h4, h5, h6, h7⟩ := hs
  have hshift : rb.shift =
      ({ rb.check_shrink with
          length := rb.check_shrink.length - 1,
          array := i32set rb.check_shrink.array rb.check_shrink.begin
            rb.check_shrink.empty_value,
          begin := (rb.check_shrink.begin + 1) % rb.check_shrink.array.size },
        some (i32get rb.check_shrink.array rb.check_shrink.begin)) := by
    simp only [RingBuffer.shift, if_neg hlen0, size_i32set]
  rw [hshift]
  set s := rb.check_shrink with hsdef
  have hsl : s.length = l.length := by omega
  have hb0 : (s.begin + 0) % s.array.size = s.begin := by
    rw [Nat.add_zero, Nat.mod_eq_of_lt h3]
  constructor
  · refine ⟨?_, ?_, ?_, ?_, ?_, ?_, ?_, ?_⟩
    · simpa [size_i32set] using h0
    · simp only [List.length_tail]
      omega
    · simp only [size_i32set]
      omega
    · simp only [size_i32set]
      exact Nat.mod_lt _ h0
    · simp only [size_i32set, Nat.mod_add_mod]
      have harg : s.begin + 1 + (s.length - 1) = s.begin + s.length := by omega
      rw [harg]
      exact h4
    · simpa using h5
    · intro i hi
      simp only [size_i32set, List.length_tail] at hi ⊢
      rw [Nat.mod_add_mod]
      have harg : s.begin + 1 + i = s.begin + (i + 1) := by omega
      rw [harg]
      have hne : (s.begin + (i + 1)) % s.array.size ≠ s.begin := by
        intro hcontra
        have hc2 : (s.begin + (i + 1)) % s.array.size = (s.begin + 0) % s.array.size := by
          rw [hcontra, Nat.add_zero, Nat.mod_eq_of_lt h3]
        have := (slot_inj h0 (show i + 1 < s.array.size by omega) h0).mp hc2
        omega
      rw [i32get_i32set_of_ne _ _ _ _ hne, h6 (i + 1) (by omega), list_getD_tail]
    · intro i hi
      simp only [List.length_tail] at hi
      rw [list_getD_tail]
      exact h7 (i + 1) (by omega)
  · rw [← hb0, h6 0 (by omega)]

theorem models_get {rb : RingBuffer} {l : List ℤ} {i : ℕ}
    (hm : Models rb l) (hi : i < l.length) :
    rb.get i = l.getD i 0 := by
  unfold RingBuffer.get
  exact hm.2.2.2.2.2.2.1 i hi

theorem models_step {rb : RingBuffer} {l : List ℤ} {op : Op}
    (hm : Models rb l) (hok : DequeRef.opOK l op = true) :
    Models (rb.step op).1 (DequeRef.step l op).1 ∧
    (rb.step op).2 = (DequeRef.step l op).2 := by
  cases op with
  | push v =>
      have hv : inRange32 v := by simpa [DequeRef.opOK] using hok
      obtain ⟨m, o⟩ := models_push hm hv
      exact ⟨by simpa [RingBuffer.step, DequeRef.step] using m,
        by simp [RingBuffer.step, DequeRef.step, o]⟩
  | unshift v =>
      have hv : inRange32 v := by simpa [DequeRef.opOK] using hok
      obtain ⟨m, o⟩ := models_unshift hm hv
      exact ⟨by simpa [RingBuffer.step, DequeRef.step] using m,
        by simp [RingBuffer.step, DequeRef.step, o]⟩
  | pop =>
      by_cases hl : l = []
      · subst hl
        have hlen0 : rb.length = 0 := by simpa using hm.2.1
        have hpop : rb.pop = (rb, none) := by
          simp [RingBuffer.pop, hlen0]
        exact ⟨by simpa [RingBuffer.step, DequeRef.step, hpop] using hm,
          by simp [RingBuffer.step, DequeRef.step, hpop]⟩
      · obtain ⟨m, o⟩ := models_pop hm hl
        have href : DequeRef.step l Op.pop = (l.dropLast, .val (l.getD (l.length - 1) 0)) := by
          simp [DequeRef.step, list_getLast?_eq_getD l hl]
        rw [href]
        exact ⟨by simpa [RingBuffer.step] using m,
          by simp [RingBuffer.step, o]⟩
  | shift =>
      by_cases hl : l = []
      · subst hl
        have hlen0 : rb.length = 0 := by simpa using hm.2.1
        have hshift : rb.shift = (rb, none) := by
          simp [RingBuffer.shift, hlen0]
        exact ⟨by simpa [RingBuffer.step, DequeRef.step, hshift] using hm,
          by simp [RingBuffer.step, DequeRef.step, hshift]⟩
      · obtain ⟨m, o⟩ := models_shift hm hl
        have href : DequeRef.step l Op.shift = (l.tail, .val (l.getD 0 0)) := by
          simp [DequeRef.step, list_head?_eq_getD l hl]
        rw [href]
        exact ⟨by simpa [RingBuffer.step] using m,
          by simp [RingBuffer.step, o]⟩
  | get i =>
      have hi : i < l.length := by simpa [DequeRef.opOK] using hok
      have href : DequeRef.step l (Op.get i) = (l, .val (l.getD i 0)) := by
        show (l, match l.get? i with | some v => Out.val v | none => Out.undef) =
          (l, .val (l.getD i 0))
        rw [list_get?_eq_getD l i hi]
      rw [href]
      exact ⟨by simpa [RingBuffer.step] using hm,
        by simp [RingBuffer.step, models_get hm hi]⟩

theorem models_run {rb : RingBuffer} {l : List ℤ} {ops : List Op}
    (hm : Models rb l) (hv : DequeRef.validOps l ops = true) :
    Models (rb.run ops).1 (DequeRef.run l ops).1 ∧
    (rb.run ops).2 = (DequeRef.run l ops).2 := by
  induction ops generalizing rb l with
  | nil => exact ⟨hm, rfl⟩
  | cons op ops ih =>
      rw [DequeRef.validOps, Bool.and_eq_true] at hv
      obtain ⟨m, o⟩ := models_step hm hv.1
      obtain ⟨m2, o2⟩ := ih m hv.2
      constructor
      · simpa [RingBuffer.run, DequeRef.run] using m2
      · simp [RingBuffer.run, DequeRef.run, o, o2]

theorem models_reset : Models RingBuffer.reset [] := by decide

/-! ### Capacity tracking through arbitrary operation sequences -/

theorem realloc_size {rb : RingBuffer} {size : ℕ} (h : rb.length ≤ size) :
    (rb.realloc size).array.size = size ∧
    (rb.realloc size).length = rb.length ∧
    (rb.realloc size).min_capacity = rb.min_capacity ∧
    (rb.realloc size).begin = 0 ∧
    (rb.realloc size).empty_value = rb.empty_value := by
  unfold RingBuffer.realloc
  rw [if_neg (by omega)]
  exact ⟨by rw [copy_loop_size, copy_loop_size, size_new_array], rfl, rfl, rfl, rfl⟩

theorem wf_check_grow {rb : RingBuffer} (h : WF rb) :
    WF rb.check_grow ∧ rb.check_grow.length = rb.length ∧
    rb.check_grow.length < rb.check_grow.array.size := by
  obtain ⟨h0, h1, h2, k, hk⟩ := h
  unfold RingBuffer.check_grow
  split
  · next heq =>
      have hlt : rb.length ≤ rb.length <<< 1 := by
        rw [Nat.shiftLeft_eq]
        omega
      obtain ⟨s1, s2, s3, s4, s5⟩ := realloc_size hlt
      refine ⟨⟨?_, ?_, ?_, ⟨k + 1, ?_⟩⟩, s2, ?_⟩
      · rw [s1, Nat.shiftLeft_eq]
        omega
      · rw [s1, s2, Nat.shiftLeft_eq]
        omega
      · omega
      · rw [s1, Nat.shiftLeft_eq, heq, hk]
        ring
      · rw [s1, s2, Nat.shiftLeft_eq]
        omega
  · next hne => exact ⟨⟨h0, h1, h2, k, hk⟩, rfl, by omega⟩

theorem wf_check_shrink {rb : RingBuffer} (h : WF rb) :
    WF rb.check_shrink ∧ rb.check_shrink.length = rb.length := by
  obtain ⟨h0, h1, h2, k, hk⟩ := h
  simp only [RingBuffer.check_shrink]
  split
  · next hcond =>
      obtain ⟨hc1, hc2⟩ := hcond
      have hcand : rb.array.size >>> 2 = rb.array.size / 4 := by
        rw [Nat.shiftRight_eq_div_pow]
      have hhalf : rb.array.size >>> 2 >>> 1 = rb.array.size >>> 2 / 2 := by
        rw [Nat.shiftRight_eq_div_pow _ 1]
      have hcpos : 0 < rb.array.size >>> 2 := by omega
      have hlen : rb.length ≤ rb.array.size >>> 2 := by omega
      obtain ⟨s1, s2, s3, s4, s5⟩ :=
        @realloc_size { rb with shrink_count := rb.shrink_count + 1 }
          (rb.array.size >>> 2) (by simpa using hlen)
      have hk2 : 2 ≤ k := by
        by_contra hcon
        interval_cases k <;> simp [hk] at hcand <;> omega
      refine ⟨⟨?_, ?_, ?_, ⟨k - 2, ?_⟩⟩, ?_⟩
      · omega
      · simp only [s1, s2]
        simpa using hlen
      · simpa using s3.symm ▸ h2
      · rw [s1, hcand, hk, show (4 : ℕ) = 2 ^ 2 by norm_num,
          Nat.pow_div hk2 (by norm_num)]
      · simpa using s2
  · exact ⟨⟨h0, h1, h2, k, hk⟩, rfl⟩

theorem wf_step {rb : RingBuffer} (h : WF rb) (op : Op) : WF (rb.step op).1 := by
  cases op with
  | push v =>
      obtain ⟨⟨g0, g1, g2, k, gk⟩, glen, glt⟩ := wf_check_grow h
      have hst : (rb.step (Op.push v)).1 =
          { rb.check_grow with
            array := i32set rb.check_grow.array rb.check_grow.«end» v,
            «end» := (rb.check_grow.«end» + 1) % rb.check_grow.array.size,
            length := rb.check_grow.length + 1 } := by
        simp only [RingBuffer.step, RingBuffer.push, size_i32set]
      rw [hst]
      exact ⟨by simpa [size_i32set] using g0, by simp only [size_i32set]; omega,
        by simpa using g2, k, by simpa [size_i32set] using gk⟩
  | unshift v =>
      obtain ⟨⟨g0, g1, g2, k, gk⟩, glen, glt⟩ := wf_check_grow h
      have hst : (rb.step (Op.unshift v)).1 =
          { rb.check_grow with
            begin := (rb.check_grow.begin + rb.check_grow.array.size - 1) %
              rb.check_grow.array.size,
            array := i32set rb.check_grow.array
              ((rb.check_grow.begin + rb.check_grow.array.size - 1) %
                rb.check_grow.array.size) v,
            length := rb.check_grow.length + 1 } := by
        simp only [RingBuffer.step, RingBuffer.unshift, size_i32set]
      rw [hst]
      exact ⟨by simpa [size_i32set] using g0, by simp only [size_i32set]; omega,
        by simpa using g2, k, by simpa [size_i32set] using gk⟩
  | pop =>
      by_cases hlen : rb.length = 0
      · have : (rb.step Op.pop).1 = rb := by
          simp [RingBuffer.step, RingBuffer.pop, hlen]
        rwa [this]
      · obtain ⟨⟨s0, s1, s2, k, sk⟩, slen⟩ := wf_check_shrink h
        have hst : (rb.step Op.pop).1 =
            { rb.check_shrink with
              length := rb.check_shrink.length - 1,
              «end» := (rb.check_shrink.«end» + rb.check_shrink.array.size - 1) %
                rb.check_shrink.array.size,
              array := i32set rb.check_shrink.array
                ((rb.check_shrink.«end» + rb.check_shrink.array.size - 1) %
                  rb.check_shrink.array.size) rb.check_shrink.empty_value } := by
          simp only [RingBuffer.step, RingBuffer.pop, if_neg hlen]
        rw [hst]
        exact ⟨by simpa [size_i32set] using s0, by simp only [size_i32set]; omega,
          by simpa using s2, k, by simpa [size_i32set] using sk⟩
  | shift =>
      by_cases hlen : rb.length = 0
      · have : (rb.step Op.shift).1 = rb := by
          simp [RingBuffer.step, RingBuffer.shift, hlen]
        rwa [this]
      · obtain ⟨⟨s0, s1, s2, k, sk⟩, slen⟩ := wf_check_shrink h
        have hst : (rb.step Op.shift).1 =
            { rb.check_shrink with
              length := rb.check_shrink.length - 1,
              array := i32set rb.check_shrink.array rb.check_shrink.begin
                rb.check_shrink.empty_value,
              begin := (rb.check_shrink.begin + 1) % rb.check_shrink.array.size } := by
          simp only [RingBuffer.step, RingBuffer.shift, if_neg hlen, size_i32set]
        rw [hst]
        exact ⟨by simpa [size_i32set] using s0, by simp only [size_i32set]; omega,
          by simpa using s2, k, by simpa [size_i32set] using sk⟩
  | get i =>
      have : (rb.step (Op.get i)).1 = rb := rfl
      rwa [this]

theorem wf_run {rb : RingBuffer} (h : WF rb) (ops : List Op) : WF (rb.run ops).1 := by
  induction ops generalizing rb with
  | nil => exact h
  | cons op ops ih =>
      have := ih (wf_step h op)
      simpa [RingBuffer.run] using this

theorem wf_reset : WF RingBuffer.reset := by
  refine ⟨?_, ?_, ?_, ⟨4, ?_⟩⟩ <;>
    simp [RingBuffer.reset, RingBuffer.new_array]

/-! ### Generic facts about `check_shrink` needed for the removal claims -/

theorem check_shrink_generic {rb : RingBuffer} (hlen : 0 < rb.length)
    (h2 : 0 < rb.array.size) (h3 : rb.begin < rb.array.size) :
    0 < rb.check_shrink.array.size ∧
    rb.check_shrink.begin < rb.check_shrink.array.size ∧
    rb.check_shrink.length = rb.length ∧
    rb.check_shrink.empty_value = rb.empty_value := by
  simp only [RingBuffer.check_shrink]
  split
  · next hcond =>
      obtain ⟨hc1, hc2⟩ := hcond
      have hd : rb.array.size >>> 2 >>> 1 = rb.array.size >>> 2 / 2 := by
        rw [Nat.shiftRight_eq_div_pow _ 1]
      have hcpos : 0 < rb.array.size >>> 2 := by omega
      obtain ⟨s1, s2, s3, s4, s5⟩ :=
        @realloc_size { rb with shrink_count := rb.shrink_count + 1 }
          (rb.array.size >>> 2) (by simp only []; omega)
      refine ⟨by omega, by omega, by simpa using s2, by simpa using s5⟩
  · exact ⟨h2, h3, rfl, rfl⟩

/-- Claim C3: starting from a freshly constructed `RingBuffer`, every
sequence of `push` / `unshift` / `pop` / `shift` / `get` operations
(with pushed values in `Int32Array` range and `get` indices in bounds)
produces exactly the same observable results as the reference
double-ended queue, and the final length equals the reference length,
the net of additions minus removals (never negative, as it is the
length of a list). -/
theorem claim_C3 (ops : List Op) (hv : DequeRef.validOps [] ops = true) :
    (RingBuffer.reset.run ops).2 = (DequeRef.run [] ops).2 ∧
    (RingBuffer.reset.run ops).1.length = (DequeRef.run [] ops).1.length := by
  obtain ⟨m, o⟩ := models_run models_reset hv
  exact ⟨o, m.2.1⟩

/-- Witness for C3 at a concrete operation sequence. -/
theorem claim_C3_witness :
    DequeRef.validOps []
      [Op.push 65, Op.push 66, Op.unshift 7, Op.get 1, Op.pop, Op.shift, Op.pop,
        Op.pop] = true ∧
    ((RingBuffer.reset.run
        [Op.push 65, Op.push 66, Op.unshift 7, Op.get 1, Op.pop, Op.shift, Op.pop,
          Op.pop]).2 =
      (DequeRef.run []
        [Op.push 65, Op.push 66, Op.unshift 7, Op.get 1, Op.pop, Op.shift, Op.pop,
          Op.pop]).2 ∧
     (RingBuffer.reset.run
        [Op.push 65, Op.push 66, Op.unshift 7, Op.get 1, Op.pop, Op.shift, Op.pop,
          Op.pop]).1.length =
      (DequeRef.run []
        [Op.push 65, Op.push 66, Op.unshift 7, Op.get 1, Op.pop, Op.shift, Op.pop,
          Op.pop]).1.length) :=
  ⟨by decide, claim_C3 _ (by decide)⟩

/-- Claim C4: in every state reachable from a freshly constructed
`RingBuffer` the capacity is a power of two and at least the length;
and whenever `_check_shrink` actually reallocates, the new capacity is
at least `min_capacity` and the new length at most half of it. -/
theorem claim_C4 (ops : List Op) :
    (∃ k, (RingBuffer.reset.run ops).1.array.size = 2 ^ k) ∧
    (RingBuffer.reset.run ops).1.length ≤ (RingBuffer.reset.run ops).1.array.size ∧
    ((RingBuffer.reset.run ops).1.check_shrink.array.size =
        (RingBuffer.reset.run ops).1.array.size ∨
      ((RingBuffer.reset.run ops).1.min_capacity ≤
          (RingBuffer.reset.run ops).1.check_shrink.array.size ∧
        (RingBuffer.reset.run ops).1.check_shrink.length ≤
          (RingBuffer.reset.run ops).1.check_shrink.array.size / 2)) := by
  obtain ⟨h0, h1, h2, k, hk⟩ := wf_run wf_reset ops
  refine ⟨⟨k, hk⟩, h1, ?_⟩
  set s := (RingBuffer.reset.run ops).1 with hs
  simp only [RingBuffer.check_shrink]
  split
  · next hcond =>
      obtain ⟨hc1, hc2⟩ := hcond
      have hhalf : s.array.size >>> 2 >>> 1 = s.array.size >>> 2 / 2 := by
        rw [Nat.shiftRight_eq_div_pow _ 1]
      obtain ⟨s1, s2, s3⟩ :=
        @realloc_size { s with shrink_count := s.shrink_count + 1 }
          (s.array.size >>> 2) (by simp only []; omega)
      right
      refine ⟨by omega, ?_⟩
      rw [s1]
      simp only [] at s2
      omega
  · exact Or.inl rfl

/-- Claim C5: removing an element by `pop` or `shift` from a non-empty
queue (with sane indices and a representable sentinel, as established
at construction) yields a value, and the storage slot that held the
removed element is overwritten with `empty_value`. -/
theorem claim_C5 (rb : RingBuffer) (h1 : 0 < rb.length) (h2 : 0 < rb.array.size)
    (h3 : rb.begin < rb.array.size) (h4 : toInt32 rb.empty_value = rb.empty_value) :
    ((rb.pop).2.isSome = true ∧
     i32get (rb.pop).1.array (rb.pop).1.«end» = rb.empty_value) ∧
    ((rb.shift).2.isSome = true ∧
     i32get (rb.shift).1.array
       (((rb.shift).1.begin + (rb.shift).1.array.size - 1) %
         (rb.shift).1.array.size) = rb.empty_value) := by
  obtain ⟨g0, g1, g2, g3⟩ := check_shrink_generic h1 h2 h3
  have hlen0 : ¬ rb.length = 0 := by omega
  set s := rb.check_shrink with hsdef
  constructor
  · have hpop : rb.pop =
        ({ s with
            length := s.length - 1,
            «end» := (s.«end» + s.array.size - 1) % s.array.size,
            array := i32set s.array ((s.«end» + s.array.size - 1) % s.array.size)
              s.empty_value },
          some (i32get s.array ((s.«end» + s.array.size - 1) % s.array.size))) := by
      simp only [RingBuffer.pop, if_neg hlen0, hsdef]
    rw [hpop]
    refine ⟨rfl, ?_⟩
    have he : (s.«end» + s.array.size - 1) % s.array.size < s.array.size :=
      Nat.mod_lt _ g0
    rw [i32get_i32set_self _ _ _ he, g3, h4]
  · have hshift : rb.shift =
        ({ s with
            length := s.length - 1,
            array := i32set s.array s.begin s.empty_value,
            begin := (s.begin + 1) % s.array.size },
          some (i32get s.array s.begin)) := by
      simp only [RingBuffer.shift, if_neg hlen0, size_i32set, hsdef]
    rw [hshift]
    refine ⟨rfl, ?_⟩
    have hsz : (i32set s.array s.begin s.empty_value).size = s.array.size :=
      size_i32set _ _ _
    have hslot : ((s.begin + 1) % s.array.size + s.array.size - 1) % s.array.size =
        s.begin := by
      have harg : (s.begin + 1) % s.array.size + s.array.size - 1 =
          (s.begin + 1) % s.array.size + (s.array.size - 1) := by omega
      rw [harg, Nat.mod_add_mod]
      have harg2 : s.begin + 1 + (s.array.size - 1) = s.begin + s.array.size := by
        omega
      rw [harg2, Nat.add_mod_right, Nat.mod_eq_of_lt g1]
    simp only [hsz, hslot]
    rw [i32get_i32set_self _ _ _ g1, g3, h4]

/-- Witness for C5 at a concrete one-element queue. -/
theorem claim_C5_witness :
    (0 < ((RingBuffer.reset.push 65).1).length ∧
     0 < ((RingBuffer.reset.push 65).1).array.size ∧
     ((RingBuffer.reset.push 65).1).begin < ((RingBuffer.reset.push 65).1).array.size ∧
     toInt32 ((RingBuffer.reset.push 65).1).empty_value =
       ((RingBuffer.reset.push 65).1).empty_value) ∧
    ((((RingBuffer.reset.push 65).1.pop).2.isSome = true ∧
      i32get ((RingBuffer.reset.push 65).1.pop).1.array
        ((RingBuffer.reset.push 65).1.pop).1.«end» =
        ((RingBuffer.reset.push 65).1).empty_value) ∧
     (((RingBuffer.reset.push 65).1.shift).2.isSome = true ∧
      i32get ((RingBuffer.reset.push 65).1.shift).1.array
        ((((RingBuffer.reset.push 65).1.shift).1.begin +
            ((RingBuffer.reset.push 65).1.shift).1.array.size - 1) %
          ((RingBuffer.reset.push 65).1.shift).1.array.size) =
        ((RingBuffer.reset.push 65).1).empty_value)) :=
  ⟨⟨by decide, by decide, by decide, by decide⟩,
    claim_C5 _ (by decide) (by decide) (by decide) (by decide)⟩

/-- Claim C8: `pop` and `shift` on an empty queue return the "no value"
result and leave the whole state untouched. -/
theorem claim_C8 (rb : RingBuffer) (h : rb.length = 0) :
    rb.pop = (rb, none) ∧ rb.shift = (rb, none) := by
  constructor
  · simp [RingBuffer.pop, h]
  · simp [RingBuffer.shift, h]

/-- Witness for C8 at the freshly constructed queue. -/
theorem claim_C8_witness :
    RingBuffer.reset.length = 0 ∧
    (RingBuffer.reset.pop = (RingBuffer.reset, none) ∧
     RingBuffer.reset.shift = (RingBuffer.reset, none)) :=
  ⟨rfl, claim_C8 RingBuffer.reset rfl⟩

/-! ### Bit toolkit for the register model -/

theorem land_lor_self (x m : ℕ) : (x ||| m) &&& m = m := by
  apply Nat.eq_of_testBit_eq
  intro i
  rw [Nat.testBit_land, Nat.testBit_lor]
  cases x.testBit i <;> cases m.testBit i <;> rfl

theorem lor_preserves_land (x m k : ℕ) (h : m &&& k = 0) :
    (x ||| m) &&& k = x &&& k := by
  apply Nat.eq_of_testBit_eq
  intro i
  have hmk : (m &&& k).testBit i = false := by rw [h]; exact Nat.zero_testBit i
  rw [Nat.testBit_land] at hmk
  rw [Nat.testBit_land, Nat.testBit_lor, Nat.testBit_land]
  cases hx : x.testBit i <;> cases hk : k.testBit i <;> simp_all

theorem testBit_js_not (m i : ℕ) :
    (js_not m).testBit i = (decide (i < 32) && ! m.testBit i) := by
  unfold js_not
  rw [Nat.testBit_xor, Nat.testBit_two_pow_sub_one, Nat.testBit_mod_two_pow]
  by_cases hi : i < 32
  · simp [hi]
  · simp [hi]

theorem land_js_not_self (x m : ℕ) (hm : m < 2 ^ 32) :
    (x &&& js_not m) &&& m = 0 := by
  apply Nat.eq_of_testBit_eq
  intro i
  rw [Nat.testBit_land, Nat.testBit_land, testBit_js_not, Nat.zero_testBit]
  by_cases hi : i < 32
  · simp only [hi, decide_True, Bool.true_and]
    cases hx : x.testBit i <;> cases hmm : m.testBit i <;> simp
  · have : m.testBit i = false :=
      Nat.testBit_eq_false_of_lt
        (lt_of_lt_of_le hm (Nat.pow_le_pow_right (by norm_num) (by omega)))
    simp [this]

theorem land_js_not_preserves (x m k : ℕ) (h : m &&& k = 0) (hk : k < 2 ^ 32) :
    (x &&& js_not m) &&& k = x &&& k := by
  apply Nat.eq_of_testBit_eq
  intro i
  have hmk : (m &&& k).testBit i = false := by rw [h]; exact Nat.zero_testBit i
  rw [Nat.testBit_land] at hmk
  rw [Nat.testBit_land, Nat.testBit_land, testBit_js_not, Nat.testBit_land]
  by_cases hi : i < 32
  · simp only [hi, decide_True, Bool.true_and]
    cases hx : x.testBit i <;> cases hkk : k.testBit i <;> simp_all
  · have : k.testBit i = false :=
      Nat.testBit_eq_false_of_lt
        (lt_of_lt_of_le hk (Nat.pow_le_pow_right (by norm_num) (by omega)))
    simp [this]

/-! ### Characterizations of the interrupt helpers -/

theorem ThrowCTI_masked {s : UARTDev} (h : s.IER &&& UART_IER_RDI = 0) :
    s.ThrowCTI = ({ s with ints := s.ints ||| (1 <<< UART_IIR_CTI) }, []) := by
  simp [UARTDev.ThrowCTI, h]

theorem ThrowCTI_fires {s : UARTDev} (h1 : ¬ s.IER &&& UART_IER_RDI = 0)
    (h2 : s.IIR ≠ UART_IIR_RLSI) (h3 : s.IIR ≠ UART_IIR_RDI) :
    s.ThrowCTI =
      ({ s with
          ints := s.ints ||| (1 <<< UART_IIR_CTI),
          IIR := UART_IIR_CTI },
        [Ev.raiseIrq 0x2]) := by
  simp [UARTDev.ThrowCTI, h1, h2, h3]

theorem ThrowTHRI_parts (s : UARTDev) :
    (s.ThrowTHRI).1.LSR = s.LSR ∧
    (s.ThrowTHRI).1.ints = s.ints ||| (1 <<< UART_IIR_THRI) ∧
    ((s.ThrowTHRI).2 = [] ∨ (s.ThrowTHRI).2 = [Ev.raiseIrq 0x2]) := by
  simp only [UARTDev.ThrowTHRI]
  split
  · exact ⟨rfl, rfl, Or.inl rfl⟩
  · split
    · exact ⟨rfl, rfl, Or.inr rfl⟩
    · exact ⟨rfl, rfl, Or.inl rfl⟩

theorem ClearInterrupt_of_ne {s : UARTDev} {line : ℕ} (h : line ≠ UART_IIR_NO_INT) :
    s.ClearInterrupt line =
      ({ s with
          ints := s.ints &&& js_not (1 <<< (line % 32)),
          IIR := UART_IIR_NO_INT },
        []) := by
  simp [UARTDev.ClearInterrupt, h]

/-- Claim C9: with the receive-data-interrupt enable bit of IER clear,
`ReceiveChar` produces no collaborator call at all (in particular no
raise), while still appending the byte to the fifo, setting the
Data-Ready bit of LSR and recording the Character-Timeout cause in
`ints`. -/
theorem claim_C9 (s : UARTDev) (x : ℤ) (l : List ℤ)
    (hen : s.IER &&& UART_IER_RDI = 0) (hm : Models s.fifo l) (hx : inRange32 x) :
    (s.ReceiveChar x).2 = [] ∧
    Models (s.ReceiveChar x).1.fifo (l ++ [x]) ∧
    (s.ReceiveChar x).1.LSR &&& UART_LSR_DATA_READY = UART_LSR_DATA_READY ∧
    (s.ReceiveChar x).1.ints &&& (1 <<< UART_IIR_CTI) = 1 <<< UART_IIR_CTI := by
  have hrc : s.ReceiveChar x =
      ({ s with
          fifo := (s.fifo.push x).1,
          LSR := s.LSR ||| UART_LSR_DATA_READY,
          ints := s.ints ||| (1 <<< UART_IIR_CTI) }, []) := by
    unfold UARTDev.ReceiveChar
    exact ThrowCTI_masked hen
  rw [hrc]
  exact ⟨rfl, (models_push hm hx).1, land_lor_self _ _, land_lor_self _ _⟩

/-- Witness for C9: a freshly constructed device receiving byte 65. -/
theorem claim_C9_witness :
    (UARTDev.init.IER &&& UART_IER_RDI = 0 ∧ Models UARTDev.init.fifo [] ∧
      inRange32 65) ∧
    ((UARTDev.init.ReceiveChar 65).2 = [] ∧
     Models (UARTDev.init.ReceiveChar 65).1.fifo ([] ++ [65]) ∧
     (UARTDev.init.ReceiveChar 65).1.LSR &&& UART_LSR_DATA_READY =
       UART_LSR_DATA_READY ∧
     (UARTDev.init.ReceiveChar 65).1.ints &&& (1 <<< UART_IIR_CTI) =
       1 <<< UART_IIR_CTI) :=
  ⟨⟨by decide, by decide, by decide⟩,
    claim_C9 UARTDev.init 65 [] (by decide) (by decide) (by decide)⟩

/-- Claim C7: with DLAB clear, writing a byte to address 0 invokes the
byte sink exactly once, with the value masked to 8 bits, leaves the
FIFO-Empty bit of LSR set, and records the Transmit-Holding-Empty cause
in `ints` before returning. -/
theorem claim_C7 (s : UARTDev) (B : ℕ) (hd : s.LCR &&& UART_LCR_DLAB = 0) :
    ((s.WriteReg8 0 B).2).filter Ev.isPutChar = [Ev.putChar (B &&& 0xFF)] ∧
    (s.WriteReg8 0 B).1.LSR &&& UART_LSR_FIFO_EMPTY = UART_LSR_FIFO_EMPTY ∧
    (s.WriteReg8 0 B).1.ints &&& (1 <<< UART_IIR_THRI) = 1 <<< UART_IIR_THRI := by
  obtain ⟨hL, hI, hTr⟩ := ThrowTHRI_parts
    ({ s with LSR := s.LSR &&& js_not UART_LSR_FIFO_EMPTY ||| UART_LSR_FIFO_EMPTY })
  rcases hT : UARTDev.ThrowTHRI
      ({ s with LSR := s.LSR &&& js_not UART_LSR_FIFO_EMPTY ||| UART_LSR_FIFO_EMPTY })
    with ⟨t, e⟩
  rw [hT] at hL hI hTr
  have hw : s.WriteReg8 0 B = (t, Ev.putChar (B &&& 0xFF) :: e) := by
    simp [UARTDev.WriteReg8, hd, hT]
  rw [hw]
  refine ⟨?_, ?_, ?_⟩
  · rcases hTr with h | h <;> simp at h <;> subst h <;> simp [Ev.isPutChar]
  · rw [hL]
    exact land_lor_self _ _
  · rw [hI]
    exact land_lor_self _ _

/-- Witness for C7: a freshly constructed device transmitting 0x141,
masked to 0x41. -/
theorem claim_C7_witness :
    UARTDev.init.LCR &&& UART_LCR_DLAB = 0 ∧
    (((UARTDev.init.WriteReg8 0 0x141).2).filter Ev.isPutChar =
        [Ev.putChar (0x141 &&& 0xFF)] ∧
     (UARTDev.init.WriteReg8 0 0x141).1.LSR &&& UART_LSR_FIFO_EMPTY =
       UART_LSR_FIFO_EMPTY ∧
     (UARTDev.init.WriteReg8 0 0x141).1.ints &&& (1 <<< UART_IIR_THRI) =
       1 <<< UART_IIR_THRI) :=
  ⟨by decide, claim_C7 UARTDev.init 0x141 (by decide)⟩

/-- Counterexample to claim C1 as stated: acknowledging the reported
Transmit-Holding-Empty cause (IIR = 0x02, cause 0x02) does not invoke
the re-arbitration step, although the cleared cause equals the value
IIR held immediately before it was overwritten. -/
theorem claim_C1_counterexample :
    UARTDev.ClearInterrupt thriPending UART_IIR_THRI ≠
      ClearInterrupt_claimed thriPending UART_IIR_THRI := by
  decide

/-- Claim C1 (amended): `ClearInterrupt(cause)` clears the cause bit
from `ints`, sets IIR to no-interrupt, and invokes `NextInterrupt` if
and only if the cause equals the no-interrupt value 0x01 — the value
IIR holds after the overwrite, not before it. -/
theorem claim_C1 (s : UARTDev) (line : ℕ) :
    s.ClearInterrupt line = ClearInterrupt_amended s line := by
  by_cases h : line = UART_IIR_NO_INT
  · simp [UARTDev.ClearInterrupt, ClearInterrupt_amended, h]
  · simp [UARTDev.ClearInterrupt, ClearInterrupt_amended, h]

/-- Claim C6: reading IIR while it reports Transmit-Holding-Empty
returns the low 4 bits with the two top bits set, acknowledges the
Transmit-Holding-Empty cause (clearing its `ints` bit and setting IIR
to no-interrupt, with no collaborator call), so that a subsequent
`NextInterrupt` — when no other cause is pending and enabled — keeps
IIR at no-interrupt and invokes the interrupt sink's clear. -/
theorem claim_C6 (s : UARTDev) (hd : s.LCR &&& UART_LCR_DLAB = 0)
    (hi : s.IIR = UART_IIR_THRI) :
    (s.ReadReg8 UART_IIR).2.2 = some (((s.IIR &&& 0x0f) ||| 0xC0 : ℕ) : ℤ) ∧
    (s.ReadReg8 UART_IIR).2.1 = [] ∧
    (s.ReadReg8 UART_IIR).1.ints &&& (1 <<< UART_IIR_THRI) = 0 ∧
    (s.ReadReg8 UART_IIR).1.IIR = UART_IIR_NO_INT ∧
    (¬ (s.ints &&& (1 <<< UART_IIR_CTI) ≠ 0 ∧ s.IER &&& UART_IER_RDI ≠ 0) →
      (UARTDev.NextInterrupt (s.ReadReg8 UART_IIR).1).1.IIR = UART_IIR_NO_INT ∧
      (UARTDev.NextInterrupt (s.ReadReg8 UART_IIR).1).2 = [Ev.clearIrq 0x2]) := by
  have hd' : s.LCR &&& 128 = 0 := hd
  have hi' : s.IIR = 2 := hi
  have hrr : s.ReadReg8 UART_IIR =
      ({ s with ints := s.ints &&& js_not 4, IIR := 1 },
        [], some (((s.IIR &&& 0x0f) ||| 0xC0 : ℕ) : ℤ)) := by
    simp [UARTDev.ReadReg8, ClearInterrupt_of_ne, hd', hi', UART_IIR,
      UART_IIR_NO_INT, UART_IIR_THRI, UART_DLL, UART_DLH, UART_IER, UART_MSR,
      UART_LCR, UART_LSR, UART_LCR_DLAB]
  rw [hrr]
  have hm4 : (1 <<< UART_IIR_THRI) = 4 := by decide
  have hbit2 : (s.ints &&& js_not 4) &&& (1 <<< UART_IIR_THRI) = 0 := by
    rw [hm4]
    exact land_js_not_self _ _ (by norm_num)
  have hpres : (s.ints &&& js_not 4) &&& (1 <<< UART_IIR_CTI) =
      s.ints &&& (1 <<< UART_IIR_CTI) :=
    land_js_not_preserves _ _ _ (by decide) (by decide)
  refine ⟨rfl, rfl, hbit2, rfl, ?_⟩
  intro h
  have hnc1 : ¬ ((s.ints &&& js_not 4) &&& (1 <<< UART_IIR_CTI) ≠ 0 ∧
      s.IER &&& UART_IER_RDI ≠ 0) := by
    intro hc
    apply h
    refine ⟨?_, hc.2⟩
    rw [← hpres]
    exact hc.1
  have hnc2 : ¬ ((s.ints &&& js_not 4) &&& (1 <<< UART_IIR_THRI) ≠ 0 ∧
      s.IER &&& UART_IER_THRI ≠ 0) := by
    intro hc
    exact hc.1 hbit2
  simp only [UARTDev.NextInterrupt]
  rw [if_neg hnc1, if_neg hnc2]
  exact ⟨rfl, rfl⟩

/-- Witness for C6: a device with the Transmit-Holding-Empty cause
pending and reported and everything else idle. -/
theorem claim_C6_witness :
    (thriPending.LCR &&& UART_LCR_DLAB = 0 ∧ thriPending.IIR = UART_IIR_THRI) ∧
    ((thriPending.ReadReg8 UART_IIR).2.2 =
        some (((thriPending.IIR &&& 0x0f) ||| 0xC0 : ℕ) : ℤ) ∧
     (thriPending.ReadReg8 UART_IIR).2.1 = [] ∧
     (thriPending.ReadReg8 UART_IIR).1.ints &&& (1 <<< UART_IIR_THRI) = 0 ∧
     (thriPending.ReadReg8 UART_IIR).1.IIR = UART_IIR_NO_INT ∧
     ((UARTDev.NextInterrupt (thriPending.ReadReg8 UART_IIR).1).1.IIR =
        UART_IIR_NO_INT ∧
      (UARTDev.NextInterrupt (thriPending.ReadReg8 UART_IIR).1).2 =
        [Ev.clearIrq 0x2])) :=
  ⟨⟨by decide, by decide⟩, by
    obtain ⟨a, b, c, d, e⟩ := claim_C6 thriPending (by decide) (by decide)
    exact ⟨a, b, c, d, e (by decide)⟩⟩

/-- Claim C2: with DLAB clear, reading address 0 acknowledges the
Receive-Data cause (and the Character-Timeout cause, which is re-signaled
exactly when more bytes remain); it pops and returns the oldest byte if
the fifo is non-empty and returns the idle value 0x21 otherwise; the
Data-Ready bit of LSR ends up set exactly when bytes remain, and the
interrupt sink's raise is invoked again exactly when bytes remain and
the receive interrupt is enabled. -/
theorem claim_C2 (s : UARTDev) (l : List ℤ) (hd : s.LCR &&& UART_LCR_DLAB = 0)
    (hm : Models s.fifo l) :
    (s.ReadReg8 0).1.ints &&& (1 <<< UART_IIR_RDI) = 0 ∧
    (if 1 < l.length
      then (s.ReadReg8 0).1.ints &&& (1 <<< UART_IIR_CTI) = 1 <<< UART_IIR_CTI
      else (s.ReadReg8 0).1.ints &&& (1 <<< UART_IIR_CTI) = 0) ∧
    (if l = [] then (s.ReadReg8 0).2.2 = some 0x21 ∧ (s.ReadReg8 0).1.fifo = s.fifo
      else (s.ReadReg8 0).2.2 = some (l.getD 0 0) ∧
        Models (s.ReadReg8 0).1.fifo l.tail) ∧
    (if 1 < l.length
      then (s.ReadReg8 0).1.LSR &&& UART_LSR_DATA_READY = UART_LSR_DATA_READY
      else (s.ReadReg8 0).1.LSR &&& UART_LSR_DATA_READY = 0) ∧
    (s.ReadReg8 0).2.1 =
      (if 1 < l.length ∧ s.IER &&& UART_IER_RDI ≠ 0 then [Ev.raiseIrq 0x2]
       else []) := by
  have hd' : s.LCR &&& 128 = 0 := hd
  have hfl : s.fifo.length = l.length := hm.2.1
  have h16 : (1 <<< UART_IIR_RDI) = 16 := by decide
  have h4096 : (1 <<< UART_IIR_CTI) = 4096 := by decide
  have hDR : UART_LSR_DATA_READY = 1 := rfl
  have hb4 : ((s.ints &&& js_not 16) &&& js_not 4096) &&& 16 = 0 := by
    rw [land_js_not_preserves _ _ _ (by decide) (by decide)]
    exact land_js_not_self _ _ (by norm_num)
  have hb12 : ((s.ints &&& js_not 16) &&& js_not 4096) &&& 4096 = 0 :=
    land_js_not_self _ _ (by norm_num)
  by_cases hl : l = []
  · have hfl0 : s.fifo.length = 0 := by rw [hfl, hl]; rfl
    have hA : s.ReadReg8 0 =
        ({ s with
            input := 0,
            ints := (s.ints &&& js_not 16) &&& js_not 4096,
            IIR := 1,
            LSR := s.LSR &&& js_not 1 }, [], some 0x21) := by
      simp [UARTDev.ReadReg8, ClearInterrupt_of_ne, hd', hfl0, UART_IIR_RDI,
        UART_IIR_CTI, UART_IIR_NO_INT, UART_DLL, UART_DLH, UART_IER, UART_MSR,
        UART_IIR, UART_LCR, UART_LSR, UART_LCR_DLAB, UART_LSR_DATA_READY]
    have hlen1 : ¬ 1 < l.length := by rw [hl]; norm_num
    rw [hA]
    refine ⟨by rw [h16]; exact hb4, ?_, ?_, ?_, ?_⟩
    · rw [if_neg hlen1, h4096]
      exact hb12
    · rw [if_pos hl]
      exact ⟨rfl, rfl⟩
    · rw [if_neg hlen1, hDR]
      exact land_js_not_self _ _ (by norm_num)
    · rw [if_neg (by intro hc; exact hlen1 hc.1)]
  · rcases hsh : s.fifo.shift with ⟨f, r⟩
    obtain ⟨hmf, hr⟩ := models_shift hm hl
    rw [hsh] at hmf hr
    have hlp : 0 < l.length := List.length_pos.mpr hl
    have hfl1 : 1 ≤ s.fifo.length := by omega
    by_cases hlt : 1 < l.length
    · have hflt : 1 < s.fifo.length := by omega
      by_cases he : s.IER &&& 1 = 0
      · have hB : s.ReadReg8 0 =
            ({ s with
                input := 0,
                ints := ((s.ints &&& js_not 16) &&& js_not 4096) ||| 4096,
                IIR := 1,
                fifo := f,
                LSR := s.LSR ||| 1 }, [], r) := by
          simp [UARTDev.ReadReg8, ClearInterrupt_of_ne, ThrowCTI_masked, hd',
            hsh, hfl1, hflt, he, UART_IIR_RDI, UART_IIR_CTI, UART_IIR_NO_INT,
            UART_DLL, UART_DLH, UART_IER, UART_MSR, UART_IIR, UART_LCR,
            UART_LSR, UART_LCR_DLAB, UART_LSR_DATA_READY, UART_IER_RDI]
        rw [hB]
        refine ⟨?_, ?_, ?_, ?_, ?_⟩
        · rw [h16, lor_preserves_land _ _ _ (by decide)]
          exact hb4
        · rw [if_pos hlt, h4096]
          exact land_lor_self _ _
        · rw [if_neg hl]
          exact ⟨hr, hmf⟩
        · rw [if_pos hlt, hDR]
          exact land_lor_self _ _
        · rw [if_neg (by intro hc; exact hc.2 he)]
      · have hCTI := @ThrowCTI_fires
          { s with
              input := 0,
              ints := (s.ints &&& js_not 16) &&& js_not 4096,
              IIR := 1,
              fifo := f,
              LSR := s.LSR ||| 1 }
          (by exact he) (show (1 : ℕ) ≠ UART_IIR_RLSI by decide)
          (show (1 : ℕ) ≠ UART_IIR_RDI by decide)
        have hB : s.ReadReg8 0 =
            ({ s with
                input := 0,
                ints := ((s.ints &&& js_not 16) &&& js_not 4096) ||| 4096,
                IIR := UART_IIR_CTI,
                fifo := f,
                LSR := s.LSR ||| 1 }, [Ev.raiseIrq 0x2], r) := by
          simp [UARTDev.ReadReg8, ClearInterrupt_of_ne, hCTI, hd',
            hsh, hfl1, hflt, he, UART_IIR_RDI, UART_IIR_CTI, UART_IIR_NO_INT,
            UART_IIR_RLSI, UART_DLL, UART_DLH, UART_IER, UART_MSR, UART_IIR,
            UART_LCR, UART_LSR, UART_LCR_DLAB, UART_LSR_DATA_READY,
            UART_IER_RDI]
        rw [hB]
        refine ⟨?_, ?_, ?_, ?_, ?_⟩
        · rw [h16, lor_preserves_land _ _ _ (by decide)]
          exact hb4
        · rw [if_pos hlt, h4096]
          exact land_lor_self _ _
        · rw [if_neg hl]
          exact ⟨hr, hmf⟩
        · rw [if_pos hlt, hDR]
          exact land_lor_self _ _
        · rw [if_pos ⟨hlt, he⟩]
    · have hnlt : ¬ 1 < s.fifo.length := by omega
      have hB1 : s.ReadReg8 0 =
          ({ s with
              input := 0,
              ints := (s.ints &&& js_not 16) &&& js_not 4096,
              IIR := 1,
              fifo := f,
              LSR := s.LSR &&& js_not 1 }, [], r) := by
        simp [UARTDev.ReadReg8, ClearInterrupt_of_ne, hd', hsh, hfl1, hnlt,
          UART_IIR_RDI, UART_IIR_CTI, UART_IIR_NO_INT, UART_DLL, UART_DLH,
          UART_IER, UART_MSR, UART_IIR, UART_LCR, UART_LSR, UART_LCR_DLAB,
          UART_LSR_DATA_READY]
      rw [hB1]
      refine ⟨by rw [h16]; exact hb4, ?_, ?_, ?_, ?_⟩
      · rw [if_neg hlt, h4096]
        exact hb12
      · rw [if_neg hl]
        exact ⟨hr, hmf⟩
      · rw [if_neg hlt, hDR]
        exact land_js_not_self _ _ (by norm_num)
      · rw [if_neg (by intro hc; exact hlt hc.1)]

/-- Witness for C2: two queued bytes with receive interrupts enabled. -/
theorem claim_C2_witness :
    (recvTwo.LCR &&& UART_LCR_DLAB = 0 ∧ Models recvTwo.fifo [65, 66]) ∧
    ((recvTwo.ReadReg8 0).1.ints &&& (1 <<< UART_IIR_RDI) = 0 ∧
     (if 1 < ([65, 66] : List ℤ).length
       then (recvTwo.ReadReg8 0).1.ints &&& (1 <<< UART_IIR_CTI) =
         1 <<< UART_IIR_CTI
       else (recvTwo.ReadReg8 0).1.ints &&& (1 <<< UART_IIR_CTI) = 0) ∧
     (if ([65, 66] : List ℤ) = []
       then (recvTwo.ReadReg8 0).2.2 = some 0x21 ∧
         (recvTwo.ReadReg8 0).1.fifo = recvTwo.fifo
       else (recvTwo.ReadReg8 0).2.2 = some (([65, 66] : List ℤ).getD 0 0) ∧
         Models (recvTwo.ReadReg8 0).1.fifo ([65, 66] : List ℤ).tail) ∧
     (if 1 < ([65, 66] : List ℤ).length
       then (recvTwo.ReadReg8 0).1.LSR &&& UART_LSR_DATA_READY =
         UART_LSR_DATA_READY
       else (recvTwo.ReadReg8 0).1.LSR &&& UART_LSR_DATA_READY = 0) ∧
     (recvTwo.ReadReg8 0).2.1 =
       (if 1 < ([65, 66] : List ℤ).length ∧ recvTwo.IER &&& UART_IER_RDI ≠ 0
         then [Ev.raiseIrq 0x2] else [])) :=
  ⟨⟨by decide, by decide⟩, claim_C2 recvTwo [65, 66] (by decide) (by decide)⟩

/-! ### The IIR range invariant -/

theorem iir_ThrowCTI {s : UARTDev} (h : IIRreported s) : IIRreported (s.ThrowCTI).1 := by
  simp only [UARTDev.ThrowCTI]
  split
  · exact h
  · split
    · exact Or.inr (Or.inr rfl)
    · exact h

theorem iir_ThrowTHRI {s : UARTDev} (h : IIRreported s) : IIRreported (s.ThrowTHRI).1 := by
  simp only [UARTDev.ThrowTHRI]
  split
  · exact h
  · split
    · exact Or.inr (Or.inl rfl)
    · exact h

theorem iir_NextInterrupt {s : UARTDev} (h : IIRreported s) :
    IIRreported (s.NextInterrupt).1 := by
  simp only [UARTDev.NextInterrupt]
  split
  · exact iir_ThrowCTI h
  · split
    · exact iir_ThrowTHRI h
    · exact Or.inl rfl

theorem iir_ClearInterrupt (s : UARTDev) (line : ℕ) :
    IIRreported (s.ClearInterrupt line).1 := by
  simp only [UARTDev.ClearInterrupt]
  split
  · exact Or.inl rfl
  · exact iir_NextInterrupt (Or.inl rfl)

theorem iir_ReceiveChar {s : UARTDev} (h : IIRreported s) (x : ℤ) :
    IIRreported (s.ReceiveChar x).1 := by
  simp only [UARTDev.ReceiveChar]
  exact iir_ThrowCTI h

theorem iir_ReadReg8 {s : UARTDev} (h : IIRreported s) (addr : ℕ) :
    IIRreported (s.ReadReg8 addr).1 := by
  rcases h1 : UARTDev.ClearInterrupt { s with input := 0 } UART_IIR_RDI with ⟨sA, eA⟩
  rcases h2 : UARTDev.ClearInterrupt sA UART_IIR_CTI with ⟨sB, eB⟩
  have hB : IIRreported sB := by
    have hh := iir_ClearInterrupt sA UART_IIR_CTI
    rwa [h2] at hh
  rcases h3 : sB.fifo.shift with ⟨f, r⟩
  rcases h4 : UARTDev.ClearInterrupt s UART_IIR_THRI with ⟨sC, eC⟩
  have hC : IIRreported sC := by
    have hh := iir_ClearInterrupt s UART_IIR_THRI
    rwa [h4] at hh
  simp only [UARTDev.ReadReg8, h1, h2, h3, h4]
  repeat' split
  all_goals
    first
      | exact h
      | exact hB
      | exact hC
      | (apply iir_ThrowCTI; exact hB)

theorem iir_WriteReg8 {s : UARTDev} (h : IIRreported s) (addr x : ℕ) :
    IIRreported (s.WriteReg8 addr x).1 := by
  simp only [UARTDev.WriteReg8]
  repeat' split
  all_goals
    first
      | exact h
      | (apply iir_ThrowTHRI; exact h)
      | (apply iir_NextInterrupt; exact h)

theorem iir_Reset (s : UARTDev) : IIRreported s.Reset :=
  Or.inl rfl

/-- Claim C10: in every state reachable from construction by any
sequence of the public operations, IIR holds one of exactly three
values: no-interrupt (0x01), Transmit-Holding-Empty (0x02) or
Character-Timeout (0x0c). -/
theorem claim_C10 (ops : List UOp) : IIRreported (UARTDev.init.runOps ops) := by
  have hstep : ∀ (s : UARTDev) (op : UOp), IIRreported s →
      IIRreported (match op with
        | .recv x => (s.ReceiveChar x).1
        | .rd a => (s.ReadReg8 a).1
        | .wr a x => (s.WriteReg8 a x).1
        | .rst => s.Reset
        | .cti => (s.ThrowCTI).1
        | .thri => (s.ThrowTHRI).1
        | .nextInt => (s.NextInterrupt).1
        | .clrInt line => (s.ClearInterrupt line).1) := by
    intro s op hs
    cases op with
    | recv x => exact iir_ReceiveChar hs x
    | rd a => exact iir_ReadReg8 hs a
    | wr a x => exact iir_WriteReg8 hs a x
    | rst => exact iir_Reset s
    | cti => exact iir_ThrowCTI hs
    | thri => exact iir_ThrowTHRI hs
    | nextInt => exact iir_NextInterrupt hs
    | clrInt line => exact iir_ClearInterrupt s line
  have hrun : ∀ (ops : List UOp) (s : UARTDev), IIRreported s →
      IIRreported (s.runOps ops) := by
    intro ops
    induction ops with
    | nil => intro s hs; exact hs
    | cons op ops ih =>
        intro s hs
        exact ih _ (hstep s op hs)
  exact hrun ops UARTDev.init (Or.inl rfl)
